import Mathlib

/-!
A verification development for the "simple" concatenative JIT interpreter
(kernel.c together with the x64 emitter).  The C code is shallowly embedded:

* machine `long` / pointer arithmetic is modelled as `Int` with explicit
  two's-complement wrapping (`wrap64`) at every operation the C source
  performs on a 64-bit signed quantity;
* the input stream is a list of bytes; `ungetc` pushback is modelled by
  returning the remaining stream with the pushed-back byte at its head;
* the process-fatal `error(...)` calls are modelled as `Except.error` with a
  kind-tag; the constructor `Err.nullDeref` marks the places where the C
  source dereferences a NULL pointer (undefined behaviour / SIGSEGV);
* host addresses that the model cannot know (addresses of C functions, of
  heap strings, of the global handles) are given fixed representative
  values; only the JIT code buffer keeps an exact cursor / byte model.
-/

set_option maxRecDepth 10000

namespace Simple

/-! ### Two's-complement machine words -/

/-- Wrap an integer into the signed 64-bit range, the effect the C code
relies on for `long` overflow. -/
def wrap64 (x : Int) : Int :=
  (x + 9223372036854775808) % 18446744073709551616 - 9223372036854775808

/-- Cast to `uint64_t` (value of the 64-bit two's-complement bit pattern). -/
def toUInt64 (x : Int) : Nat :=
  (x % 18446744073709551616).toNat

/-- Reinterpret a 64-bit unsigned value as `intptr_t`/`long`. -/
def toSigned64 (n : Nat) : Int :=
  wrap64 ((n : Int))

/-! ### Byte (de)serialisation used by the emitter -/

/-- Little-endian bytes of a 64-bit value, as the emitter stores immediates. -/
def bytesLE8 (v : Nat) : List Nat :=
  [v % 256, v / 256 % 256, v / 65536 % 256, v / 16777216 % 256,
   v / 4294967296 % 256, v / 1099511627776 % 256,
   v / 281474976710656 % 256, v / 72057594037927936 % 256]

/-- Little-endian bytes of a 32-bit value. -/
def bytesLE4 (v : Nat) : List Nat :=
  [v % 256, v / 256 % 256, v / 65536 % 256, v / 16777216 % 256]

/-- Recompose a 64-bit value from its little-endian bytes. -/
def fromLE8 (b0 b1 b2 b3 b4 b5 b6 b7 : Nat) : Nat :=
  b0 + 256 * (b1 + 256 * (b2 + 256 * (b3 + 256 * (b4 + 256 * (b5 + 256 * (b6 + 256 * b7))))))

/-! ### Readtable (kernel.c, `default_readtable`) -/

def cpropConstituent : Nat := 1
def cpropNumberInit : Nat := 2
def cpropNumber : Nat := 4
def cpropMac : Nat := 16
def cpropWhitespace : Nat := 32
def cpropError : Nat := 64

/-- `default_readtable.char_properties`, transcribed from the designated
initialisers in kernel.c. -/
def char_properties (c : Nat) : Nat :=
  if 97 ≤ c ∧ c ≤ 122 then cpropConstituent            -- a..z
  else if 65 ≤ c ∧ c ≤ 90 then cpropConstituent        -- A..Z
  else if c = 95 ∨ c = 33 ∨ c = 64 ∨ c = 35 ∨ c = 36 ∨ c = 37 ∨ c = 94 ∨ c = 38
        ∨ c = 42 ∨ c = 58 ∨ c = 44 ∨ c = 46 ∨ c = 60 ∨ c = 62 ∨ c = 61 ∨ c = 47
        ∨ c = 63 ∨ c = 59 then cpropConstituent        -- _ ! @ # $ % ^ & * : , . < > = / ? ;
  else if c = 45 ∨ c = 43 then cpropNumberInit ||| cpropConstituent    -- - +
  else if 48 ≤ c ∧ c ≤ 57 then cpropNumberInit ||| cpropNumber ||| cpropConstituent -- 0..9
  else if c = 34 ∨ c = 91 ∨ c = 40 then cpropMac       -- " [ (
  else if c = 93 ∨ c = 41 then cpropError              -- ] )
  else if c = 32 ∨ c = 10 ∨ c = 9 ∨ c = 13 then cpropWhitespace  -- space \n \t \r
  else 0

/-- The reader handlers that can sit in a `macro_dispatch` slot. -/
inductive Handler where
  | hString
  | hQuote
  | hError
  | hList
deriving DecidableEq, Repr

/-- `default_readtable.macro_dispatch`, transcribed from kernel.c. -/
def mdispatch (c : Nat) : Option Handler :=
  if c = 34 then some .hString
  else if c = 91 then some .hQuote
  else if c = 93 then some .hError
  else if c = 40 then some .hList
  else if c = 41 then some .hError
  else none

/-- C `toupper` on a byte (ASCII, as in the "C" locale used by the program). -/
def toUpperByte (c : Nat) : Nat :=
  if 97 ≤ c ∧ c ≤ 122 then c - 32 else c

def isNumberChar (c : Nat) : Bool :=
  char_properties c &&& cpropNumber != 0

def isConstituentChar (c : Nat) : Bool :=
  char_properties c &&& cpropConstituent != 0

/-! ### Read objects -/

/-- The tagged read-objects (`rd_type` / `union rd_any`). -/
inductive RdObj where
  | symbol (repr : List Nat)
  | number (value : Int)
  | string (contents : List Nat)
  | quote
  | cons
deriving DecidableEq, Repr

/-- Fatal-error kinds; each corresponds to an `error(...)` call in the C
source, except `nullDeref` (a NULL-pointer dereference, i.e. a crash, not a
diagnostic), `fuelOut` (the model's recursion fuel) and `unsupported`
(behaviour beyond the shallow embedding, e.g. running guest machine code). -/
inductive Err where
  | illegalChar (c : Nat)
  | noHandler (c : Nat)
  | numberCont (c : Nat)
  | noProps (c : Nat)
  | unterminatedString
  | undefinedName (n : List Nat)
  | badDefName
  | unimplemented
  | nullDeref
  | fuelOut
  | unsupported
deriving DecidableEq, Repr

/-! ### Decimal digits helpers (for literals and for `printf %ld`) -/

/-- Decimal digits of `n`, least significant first; `fuel` bounds recursion. -/
def natDigitsLSB : Nat → Nat → List Nat
  | 0, _ => []
  | f + 1, n => if n < 10 then [n] else n % 10 :: natDigitsLSB f (n / 10)

/-- ASCII bytes of the usual decimal notation of `n` (most significant first). -/
def decBytes (n : Nat) : List Nat :=
  ((natDigitsLSB (n + 1) n).reverse).map (fun d => d + 48)

/-- Value of a least-significant-first digit list. -/
def ofLSB : List Nat → Nat
  | [] => 0
  | d :: ds => d + 10 * ofLSB ds

/-- Value of a least-significant-first list of ASCII digit bytes (each byte
contributes `b - 48`), without any wrapping: the mathematical value the
`read_number` loop is chasing. -/
def digitsVal : List Nat → Int
  | [] => 0
  | b :: bs => ((b : Int) - 48) + 10 * digitsVal bs

/-- ASCII bytes printf's `%ld` produces for a signed value (also the textual
form of an integer literal). -/
def decimalRepr (a : Int) : List Nat :=
  if a < 0 then 45 :: decBytes a.natAbs else decBytes a.natAbs

/-- The textual form of the integer literal `L`. -/
def textForm (l : Int) : List Nat := decimalRepr l

/-! ### The reader (kernel.c `read`, `read_number`, `read_symbol`, `read_string`) -/

/-- The digit-accumulation loop at the end of `read_number`: the byte list is
processed least-significant-digit first (the C loop runs the index from the
end of the vector down to its start), with `value += (b - '0') * factor;
factor *= 10;`, all in wrapping 64-bit arithmetic. -/
def conv_loop : List Nat → Int → Int → Int
  | [], v, _ => v
  | b :: bs, v, fac =>
      conv_loop bs (wrap64 (v + wrap64 (((b : Int) - 48) * fac))) (wrap64 (fac * 10))

/-- Value of a digit-byte sequence (most significant first), as `read_number`
computes it (right-to-left, factors of 10 ascending from 1). -/
def read_number_value (repr : List Nat) : Int :=
  conv_loop repr.reverse 0 1

/-- `read_number`: `ch` is the (already upper-cased) classifier byte handed
over by `read`; further bytes are consumed raw while they carry the NUMBER
property, and the first non-matching byte is pushed back. -/
def read_number (ch : Nat) (s : List Nat) : RdObj × List Nat :=
  let negate := ch = 45
  let initR : List Nat := if ch = 45 ∨ ch = 43 then [] else [ch]
  let taken := s.takeWhile isNumberChar
  let rest := s.dropWhile isNumberChar
  let v := read_number_value (initR ++ taken)
  (.number (if negate then wrap64 (-v) else v), rest)

/-- The accumulation loop of `read_symbol`: bytes are upper-cased, collected
while CONSTITUENT; the first non-constituent byte is pushed back (after
upper-casing, exactly as the C code `ungetc`s the converted character). -/
def sym_loop : List Nat → List Nat × List Nat
  | [] => ([], [])
  | c :: rest =>
      let ch := toUpperByte (c % 256)
      if isConstituentChar ch then
        let r := sym_loop rest
        (ch :: r.1, r.2)
      else ([], ch :: rest)

/-- `read_symbol`: the classifier byte (already upper-cased) starts the name. -/
def read_symbol (ch : Nat) (s : List Nat) : RdObj × List Nat :=
  let r := sym_loop s
  (.symbol (ch :: r.1), r.2)

/-- The scan of `read_string`: raw bytes up to the closing quote; EOF first is
fatal. -/
def string_loop : List Nat → Option (List Nat × List Nat)
  | [] => none
  | c :: rest =>
      if c = 34 then some ([], rest)
      else
        match string_loop rest with
        | none => none
        | some r => some (c :: r.1, r.2)

/-- `read_string` (the `"` handler). -/
def read_string (s : List Nat) : Except Err (Option RdObj × List Nat) :=
  match string_loop s with
  | none => .error .unterminatedString
  | some r => .ok (some (.string r.1), r.2)

/-- Dispatch through a `macro_dispatch` slot; the quote / list / bracket
handlers are the `error("%s not implemented")` stubs of the source. -/
def run_handler : Handler → Nat → List Nat → Except Err (Option RdObj × List Nat)
  | .hString, _, s => read_string s
  | .hQuote, _, _ => .error .unimplemented
  | .hList, _, _ => .error .unimplemented
  | .hError, _, _ => .error .unimplemented

/-- `read` (kernel.c): returns `none` on end-of-file before a datum byte, the
read object and the remaining stream otherwise.  The byte is upper-cased,
then the property bits are tested exactly in the source's order: ERROR,
WHITESPACE, MACRO (fatal when the dispatch slot is null), NUMBER_INIT,
CONSTITUENT, NUMBER, no-properties. -/
def read : List Nat → Except Err (Option RdObj × List Nat)
  | [] => .ok (none, [])
  | c :: rest =>
      let ch := toUpperByte (c % 256)
      let p := char_properties ch
      if p &&& cpropError ≠ 0 then .error (.illegalChar ch)
      else if p &&& cpropWhitespace ≠ 0 then read rest
      else if p &&& cpropMac ≠ 0 then
        match mdispatch ch with
        | none => .error (.noHandler ch)
        | some h => run_handler h ch rest
      else if p &&& cpropNumberInit ≠ 0 then
        .ok (some (read_number ch rest).1, (read_number ch rest).2)
      else if p &&& cpropConstituent ≠ 0 then
        .ok (some (read_symbol ch rest).1, (read_symbol ch rest).2)
      else if p &&& cpropNumber ≠ 0 then .error (.numberCont ch)
      else .error (.noProps ch)

/-! ### Symbol table (kernel.c `struct symtab`) -/

/-- Symbol kinds (`enum symbol_type`): function, compile-time macro, value. -/
inductive SymKind where
  | sfun
  | smac
  | sval
deriving DecidableEq, Repr

/-- The host intrinsics registered in `main` (each is a C function whose
address becomes a symbol value). -/
inductive Prim where
  | pread
  | peval
  | pswap
  | pdup
  | pmult
  | padd
  | ppset
  | ppget
  | pprinti
  | pprints
  | pdefun
  | pdefmac
  | pdefval
  | palloc
deriving DecidableEq, Repr

/-- The five global handles registered as values in `main` (each is a
separately `calloc`ed cell, hence a distinct pointer). -/
inductive HPtr where
  | symtabH
  | readtabH
  | inH
  | outH
  | programH
deriving DecidableEq, Repr

/-- A machine word as it sits on the parameter stack or in a symbol-table
value slot (`void*`).  `i` covers plain integers and code-buffer addresses;
`strp` stands for a `char*` to the given bytes; `objp` for a pointer to a
read object; `null` for NULL. -/
inductive GVal where
  | i (n : Int)
  | prim (p : Prim)
  | hptr (h : HPtr)
  | strp (contents : List Nat)
  | objp (o : RdObj)
  | null
deriving DecidableEq, Repr

/-- One symbol-table node (`struct symtab`). -/
structure SEntry where
  name : List Nat
  value : GVal
  kind : SymKind
deriving DecidableEq, Repr

/-- The intrusive list of entries, newest first (`slist_push` prepends). -/
abbrev Symtab := List SEntry

/-- `symtab_add_symbol`: prepend, so new entries shadow old ones. -/
def symtab_add_symbol (t : Symtab) (n : List Nat) (v : GVal) (k : SymKind) : Symtab :=
  { name := n, value := v, kind := k } :: t

/-- `symtab_lookup_symbol`: first entry (newest to oldest) whose name
matches; `none` when absent. -/
def symtab_lookup_symbol (t : Symtab) (n : List Nat) : Option (GVal × SymKind) :=
  (t.find? (fun e => decide (e.name = n))).map (fun e => (e.value, e.kind))

/-- ASCII bytes of a Lean string literal (for writing C string constants). -/
def bytesOf (s : String) : List Nat :=
  s.toList.map (fun c => c.toNat)

/-- The registrations `main` performs, in program order. -/
def registrations : List (List Nat × GVal × SymKind) :=
  [ (bytesOf ("*SYMTAB*"), .hptr .symtabH, .sval),
    (bytesOf ("*READTAB*"), .hptr .readtabH, .sval),
    (bytesOf ("*IN*"), .hptr .inH, .sval),
    (bytesOf ("*OUT*"), .hptr .outH, .sval),
    (bytesOf ("*PROGRAM*"), .hptr .programH, .sval),
    (bytesOf ("READ"), .prim .pread, .sfun),
    (bytesOf ("EVAL"), .prim .peval, .sfun),
    (bytesOf ("SWAP"), .prim .pswap, .sfun),
    (bytesOf ("DUP"), .prim .pdup, .sfun),
    (bytesOf ("*"), .prim .pmult, .sfun),
    (bytesOf ("+"), .prim .padd, .sfun),
    (bytesOf ("PSET"), .prim .ppset, .sfun),
    (bytesOf ("PGET"), .prim .ppget, .sfun),
    (bytesOf ("PRINTI"), .prim .pprinti, .sfun),
    (bytesOf ("PRINTS"), .prim .pprints, .sfun),
    (bytesOf ("DEFUN"), .prim .pdefun, .sfun),
    (bytesOf ("DEFMACRO"), .prim .pdefmac, .sfun),
    (bytesOf ("DEFVAL"), .prim .pdefval, .sfun),
    (bytesOf ("PTRSIZE"), .i 8, .sval),
    (bytesOf ("ALLOC"), .prim .palloc, .sfun) ]

/-- The symbol table right after `main`'s `ADD_SYM` sequence. -/
def initialSymtab : Symtab :=
  registrations.foldl (fun t r => symtab_add_symbol t r.1 r.2.1 r.2.2) []

/-- Bytes of the body terminator symbol. -/
def doneName : List Nat := bytesOf ("DONE")

/-! ### Representative host addresses

The numeric values of host pointers are unknowable at this level of
abstraction; fixed representatives stand for them.  They only influence the
`asm_call` encoding choice and the immediates compiled for `value` symbols,
never the control flow verified here. -/

def primAddr : Prim → Nat
  | .pread => 4198400
  | .peval => 4198416
  | .pswap => 4198432
  | .pdup => 4198448
  | .pmult => 4198464
  | .padd => 4198480
  | .ppset => 4198496
  | .ppget => 4198512
  | .pprinti => 4198528
  | .pprints => 4198544
  | .pdefun => 4198560
  | .pdefmac => 4198576
  | .pdefval => 4198592
  | .palloc => 4198608

def hptrAddr : HPtr → Nat
  | .symtabH => 5242880
  | .readtabH => 5242888
  | .inH => 5242896
  | .outH => 5242904
  | .programH => 5242912

/-- Representative address of heap payloads the model does not track. -/
def heapAddr : Nat := 33554432

/-- The word a `void*` value contributes when cast to an integer. -/
def addrWord : GVal → Int
  | .i n => n
  | .prim p => ((primAddr p : Int))
  | .hptr h => ((hptrAddr h : Int))
  | .strp _ => ((heapAddr : Int))
  | .objp _ => ((heapAddr : Int))
  | .null => 0

/-- Call target as `uintptr_t`. -/
def targetAddr (v : GVal) : Nat := (addrWord v).toNat

/-! ### The emitter (x64.c: `asm_prologue`, `asm_epilogue`, `asm_ret`,
`asm_call`, `asm_integer`) -/

/-- `subq rsp, 8` (0x08ec8348 stored little-endian). -/
def asm_prologue_bytes : List Nat := [72, 131, 236, 8]

/-- `addq rsp, 8`. -/
def asm_epilogue_bytes : List Nat := [72, 131, 196, 8]

/-- `retq`. -/
def asm_ret_bytes : List Nat := [195]

/-- `asm_integer`: `subq rdi, 8`; `movabsq rcx, l`; `movq [rdi], rcx`.
(The source also stores a fourth byte 0 past the returned cursor; it lies
beyond the fragment and is overwritten by the next emission.) -/
def asm_integer_bytes (l : Int) : List Nat :=
  [72, 131, 239, 8, 72, 185] ++ bytesLE8 (toUInt64 l) ++ [72, 137, 15]

/-- The rel32 displacement of a direct call at `cur`: `target - (cur + 5)`
as a 32-bit pattern. -/
def rel32 (cur target : Nat) : Nat :=
  (((target : Int) - ((cur : Int) + 5)) % 4294967296).toNat

/-- `intptrabs` from x64.c. -/
def intptrabs (x : Int) : Int :=
  if x < 0 then -x else x

/-- `asm_call`: encoding chosen from the signed distance and the target,
exactly as the C branch structure does (NULL takes the longest form). -/
def asm_call_bytes (cur target : Nat) : List Nat :=
  if target = 0 then
    [72, 185] ++ bytesLE8 (target % 18446744073709551616) ++ [255, 209]
  else if toUInt64 (intptrabs (wrap64 (wrap64 ((target : Int)) - wrap64 ((cur : Int))))) < 2147483616 then
    232 :: bytesLE4 (rel32 cur target)
  else if target < 4294967295 then
    185 :: bytesLE4 (target % 4294967296) ++ [255, 209]
  else
    [72, 185] ++ bytesLE8 (target % 18446744073709551616) ++ [255, 209]

/-! ### Interpreter state -/

/-- Base address of the executable program area (`program_area` in `main`;
a page-aligned region whose concrete address is a load-time artefact). -/
def PROGBASE : Nat := 16777216

/-- The global state visible to the host and the guest: input stream, the
parameter stack (top first), the symbol table, the bytes emitted so far into
the code buffer, and everything written to standard output. -/
structure MState where
  stream : List Nat
  stk : List GVal
  symtab : Symtab
  prog : List Nat
  out : List Nat
deriving Repr

/-- The code-buffer write cursor (`*program_area_ptr`). -/
def cursorOf (st : MState) : Nat := PROGBASE + st.prog.length

def emit_bytes (st : MState) (bs : List Nat) : MState :=
  { st with prog := st.prog ++ bs }

def emit_prologue (st : MState) : MState := emit_bytes st asm_prologue_bytes
def emit_epilogue (st : MState) : MState := emit_bytes st asm_epilogue_bytes
def emit_ret (st : MState) : MState := emit_bytes st asm_ret_bytes
def emit_integer (st : MState) (l : Int) : MState := emit_bytes st (asm_integer_bytes l)
def emit_call (st : MState) (target : Nat) : MState :=
  emit_bytes st (asm_call_bytes (cursorOf st) target)

/-- The pieces of host code a fuel-indexed step can run: `call_guest_function`
on a value, one intrinsic, `eval`, `compile`, `define_thing` and its body
loop. -/
inductive Act where
  | callA (v : GVal)
  | primA (p : Prim)
  | evalA
  | compileA
  | defineA (k : SymKind)
  | bodyA (k : SymKind) (nm : List Nat)

/-- The head of `define_thing`: read the definition name (dereferencing the
NULL object on EOF, as the source does), capture the entry address `E` before
the prologue, register `name -> (E, kind)` immediately unless defining a
value, then emit the prologue.  Returns the name and the state in which the
body loop starts. -/
def define_setup (k : SymKind) (st : MState) : Except Err (List Nat × MState) :=
  match read st.stream with
  | .error e => .error e
  | .ok (none, _) => .error .nullDeref
  | .ok (some o, s1) =>
      match o with
      | .symbol nm =>
          let e := cursorOf st
          let st1 := { st with stream := s1 }
          let st2 :=
            if k = SymKind.sval then st1
            else { st1 with symtab := symtab_add_symbol st1.symtab nm (.i ((e : Int))) k }
          .ok (nm, emit_prologue st2)
      | _ => .error .badDefName

/-- One fuel-indexed interpreter for the mutually recursive host functions of
kernel.c.  Each `Act` case is the transcription of the corresponding C
function; all recursive calls run on strictly smaller fuel. -/
def exec : Nat → Act → MState → Except Err MState
  | 0, _, _ => .error .fuelOut
  | f + 1, a, st =>
    match a with
    | .callA v =>
        -- call_guest_function: only host functions are runnable in the model;
        -- jumping into emitted machine code is beyond the embedding.
        match v with
        | .prim p => exec f (.primA p) st
        | _ => .error .unsupported
    | .primA p =>
        match p with
        | .pdup =>
            match st.stk with
            | v :: s => .ok { st with stk := v :: v :: s }
            | _ => .error .unsupported
        | .pswap =>
            match st.stk with
            | v0 :: v1 :: s => .ok { st with stk := v1 :: v0 :: s }
            | _ => .error .unsupported
        | .pmult =>
            match st.stk with
            | .i x :: .i y :: s => .ok { st with stk := .i (wrap64 (x * y)) :: s }
            | _ => .error .unsupported
        | .padd =>
            match st.stk with
            | .i x :: .i y :: s => .ok { st with stk := .i (wrap64 (x + y)) :: s }
            | _ => .error .unsupported
        | .pprinti =>
            match st.stk with
            | .i x :: s => .ok { st with stk := s, out := st.out ++ decimalRepr x ++ [10] }
            | _ => .error .unsupported
        | .pprints =>
            match st.stk with
            | .strp cs :: s => .ok { st with stk := s, out := st.out ++ cs ++ [10] }
            | _ => .error .unsupported
        | .pread =>
            -- read pops a FILE** and dereferences it; only the *IN* handle is
            -- meaningful in the model.
            match st.stk with
            | .hptr .inH :: s =>
                match read st.stream with
                | .error e => .error e
                | .ok (ro, s2) =>
                    let pushv : GVal :=
                      match ro with
                      | none => GVal.null
                      | some o => GVal.objp o
                    .ok { st with stream := s2, stk := pushv :: s }
            | _ => .error .unsupported
        | .peval => exec f .evalA st
        | .pdefun =>
            -- define_thing receives the stack pointer by value, so defun
            -- returns with its own (unmoved) stack pointer.
            match exec f (.defineA .sfun) st with
            | .error e => .error e
            | .ok st2 => .ok { st2 with stk := st.stk }
        | .pdefmac =>
            match exec f (.defineA .smac) st with
            | .error e => .error e
            | .ok st2 => .ok { st2 with stk := st.stk }
        | .pdefval =>
            match exec f (.defineA .sval) st with
            | .error e => .error e
            | .ok st2 => .ok { st2 with stk := st.stk }
        | .ppset => .error .unsupported
        | .ppget => .error .unsupported
        | .palloc => .error .unsupported
    | .evalA =>
        match st.stk with
        | .objp o :: s =>
            match o with
            | .symbol nm =>
                match symtab_lookup_symbol st.symtab nm with
                | none => .error (.undefinedName nm)
                | some vk =>
                    match vk.2 with
                    | .sfun => exec f (.callA vk.1) { st with stk := s }
                    | .smac => exec f (.callA vk.1) { st with stk := s }
                    | .sval => .ok { st with stk := vk.1 :: s }
            | .number n => .ok { st with stk := .i n :: s }
            | .string cs => .ok { st with stk := .strp cs :: s }
            | .quote => .error .unimplemented
            | .cons => .error .unimplemented
        | .null :: _ => .error .nullDeref
        | _ => .error .unsupported
    | .compileA =>
        match st.stk with
        | .objp o :: s =>
            let st1 := { st with stk := s }
            match o with
            | .symbol nm =>
                match symtab_lookup_symbol st.symtab nm with
                | none => .error (.undefinedName nm)
                | some vk =>
                    match vk.2 with
                    | .sfun =>
                        .ok { emit_call st1 (targetAddr vk.1) with
                              stk := .i ((cursorOf st1 : Int)) :: s }
                    | .smac =>
                        -- the macro runs now, at compile time; ret stays NULL
                        match exec f (.callA vk.1) st1 with
                        | .error e => .error e
                        | .ok st2 => .ok { st2 with stk := .null :: st2.stk }
                    | .sval =>
                        .ok { emit_integer st1 (addrWord vk.1) with
                              stk := .i ((cursorOf st1 : Int)) :: s }
            | .number n =>
                .ok { emit_integer st1 n with stk := .i ((cursorOf st1 : Int)) :: s }
            | .string cs =>
                .ok { emit_integer st1 (addrWord (.strp cs)) with
                      stk := .i ((cursorOf st1 : Int)) :: s }
            | .quote => .error .unimplemented
            | .cons => .error .unimplemented
        | .null :: _ => .error .nullDeref
        | _ => .error .unsupported
    | .defineA k =>
        match define_setup k st with
        | .error e => .error e
        | .ok r =>
            match exec f (.bodyA k r.1) r.2 with
            | .error e => .error e
            | .ok st2 =>
                match k with
                | .sval =>
                    match st2.stk with
                    | v :: s =>
                        let st3 :=
                          { st2 with stk := s, symtab := symtab_add_symbol st2.symtab r.1 v .sval }
                        .ok (emit_ret (emit_epilogue st3))
                    | [] => .error .unsupported
                | _ => .ok (emit_ret (emit_epilogue st2))
    | .bodyA k nm =>
        match read st.stream with
        | .error e => .error e
        | .ok (ro, s1) =>
            let st1 := { st with stream := s1 }
            match ro with
            | none => .error .nullDeref   -- EOF: the C code dereferences NULL
            | some o =>
                if o = RdObj.symbol doneName then .ok st1
                else
                  let st2 := { st1 with stk := .objp o :: st1.stk }
                  match exec f (if k = SymKind.sval then Act.evalA else Act.compileA) st2 with
                  | .error e => .error e
                  | .ok st3 => exec f (.bodyA k nm) st3

/-- The per-file top-level loop of `main`: push the `*IN*` handle, call
`read`, stop on the NULL object, otherwise `eval` and repeat. -/
def topLoop : Nat → MState → Except Err MState
  | 0, _ => .error .fuelOut
  | f + 1, st =>
      match exec (f + 1) (.primA .pread) { st with stk := .hptr .inH :: st.stk } with
      | .error e => .error e
      | .ok st1 =>
          match st1.stk with
          | .null :: s => .ok { st1 with stk := s }
          | .objp o :: s =>
              match exec (f + 1) .evalA { st1 with stk := .objp o :: s } with
              | .error e => .error e
              | .ok st2 => topLoop f st2
          | _ => .error .unsupported

/-- The state at the start of a file: registered symbol table, empty stack,
empty code buffer, nothing printed. -/
def initState (input : List Nat) : MState :=
  { stream := input, stk := [], symtab := initialSymtab, prog := [], out := [] }

/-! ### A decoder and semantics for the instructions `asm_integer` emits -/

/-- The x86-64 instructions appearing in an integer-literal fragment. -/
inductive MInstr where
  | subRdi8
  | movRcxImm (v : Int)
  | storeRcxRdi
deriving DecidableEq, Repr

/-- Machine state relevant to such a fragment: the parameter-stack register
rdi, the scratch register rcx, and data memory (64-bit words addressed by
byte address). -/
structure MachState where
  rdi : Int
  rcx : Int
  mem : Int → Int

/-- One instruction step. -/
def mstep (ms : MachState) : MInstr → MachState
  | .subRdi8 => { ms with rdi := wrap64 (ms.rdi - 8) }
  | .movRcxImm v => { ms with rcx := v }
  | .storeRcxRdi => { ms with mem := fun a => if a = ms.rdi then ms.rcx else ms.mem a }

/-- Run a decoded fragment. -/
def mrun (l : List MInstr) (ms : MachState) : MachState := l.foldl mstep ms

/-- Decode the byte encodings `asm_integer` produces. -/
def decodeFrag : List Nat → Option (List MInstr)
  | [] => some []
  | 72 :: 131 :: 239 :: 8 :: rest =>
      match decodeFrag rest with
      | some is => some (.subRdi8 :: is)
      | none => none
  | 72 :: 185 :: b0 :: b1 :: b2 :: b3 :: b4 :: b5 :: b6 :: b7 :: rest =>
      match decodeFrag rest with
      | some is => some (.movRcxImm (toSigned64 (fromLE8 b0 b1 b2 b3 b4 b5 b6 b7)) :: is)
      | none => none
  | 72 :: 137 :: 15 :: rest =>
      match decodeFrag rest with
      | some is => some (.storeRcxRdi :: is)
      | none => none
  | _ => none

/-! ## Arithmetic facts about wrapping -/

theorem wrap64_bounds (x : Int) :
    -9223372036854775808 ≤ wrap64 x ∧ wrap64 x < 9223372036854775808 := by
  unfold wrap64; omega

theorem wrap64_eq_self (x : Int) (h1 : -9223372036854775808 ≤ x)
    (h2 : x < 9223372036854775808) : wrap64 x = x := by
  unfold wrap64; omega

theorem wrap64_emod (x : Int) :
    wrap64 x % 18446744073709551616 = x % 18446744073709551616 := by
  unfold wrap64; omega

theorem wrap64_congr (x y : Int)
    (h : x % 18446744073709551616 = y % 18446744073709551616) :
    wrap64 x = wrap64 y := by
  unfold wrap64; omega

theorem emod_add_congr (m a a2 b b2 : Int) (h1 : a % m = a2 % m)
    (h2 : b % m = b2 % m) : (a + b) % m = (a2 + b2) % m := by
  rw [Int.add_emod, h1, h2, ← Int.add_emod]

theorem emod_mul_congr (m a a2 b b2 : Int) (h1 : a % m = a2 % m)
    (h2 : b % m = b2 % m) : (a * b) % m = (a2 * b2) % m := by
  rw [Int.mul_emod, h1, h2, ← Int.mul_emod]

theorem emod_neg_congr (m a b : Int) (h : a % m = b % m) :
    (-a) % m = (-b) % m := by
  have h2 := emod_mul_congr m (-1) (-1) a b rfl h
  simpa using h2

/-! ## The digit-conversion loop of `read_number` -/

theorem conv_loop_emod (bs : List Nat) :
    ∀ v fac v2 fac2 : Int,
      v % 18446744073709551616 = v2 % 18446744073709551616 →
      fac % 18446744073709551616 = fac2 % 18446744073709551616 →
      conv_loop bs v fac % 18446744073709551616
        = (v2 + fac2 * digitsVal bs) % 18446744073709551616 := by
  induction bs with
  | nil =>
      intro v fac v2 fac2 hv _
      simpa [conv_loop, digitsVal] using hv
  | cons b bs ih =>
      intro v fac v2 fac2 hv hfac
      have hstep : wrap64 (v + wrap64 (((b : Int) - 48) * fac)) % 18446744073709551616
          = (v2 + ((b : Int) - 48) * fac2) % 18446744073709551616 := by
        rw [wrap64_emod]
        exact emod_add_congr _ _ _ _ _ hv
          ((wrap64_emod _).trans (emod_mul_congr _ _ _ _ _ rfl hfac))
      have hfacstep : wrap64 (fac * 10) % 18446744073709551616
          = (fac2 * 10) % 18446744073709551616 := by
        rw [wrap64_emod]
        exact emod_mul_congr _ _ _ _ _ hfac rfl
      have := ih _ _ (v2 + ((b : Int) - 48) * fac2) (fac2 * 10) hstep hfacstep
      calc conv_loop (b :: bs) v fac % 18446744073709551616
          = conv_loop bs (wrap64 (v + wrap64 (((b : Int) - 48) * fac)))
              (wrap64 (fac * 10)) % 18446744073709551616 := rfl
        _ = (v2 + ((b : Int) - 48) * fac2 + fac2 * 10 * digitsVal bs)
              % 18446744073709551616 := this
        _ = (v2 + fac2 * digitsVal (b :: bs)) % 18446744073709551616 := by
              rw [show digitsVal (b :: bs) = ((b : Int) - 48) + 10 * digitsVal bs from rfl]
              congr 1
              ring

theorem conv_loop_range (bs : List Nat) :
    ∀ v fac : Int, -9223372036854775808 ≤ v → v < 9223372036854775808 →
      -9223372036854775808 ≤ conv_loop bs v fac
        ∧ conv_loop bs v fac < 9223372036854775808 := by
  induction bs with
  | nil => intro v fac h1 h2; exact ⟨h1, h2⟩
  | cons b bs ih =>
      intro v fac _ _
      have hw := wrap64_bounds (v + wrap64 (((b : Int) - 48) * fac))
      exact ih _ _ hw.1 hw.2

theorem conv_loop_eq_wrap (bs : List Nat) :
    conv_loop bs 0 1 = wrap64 (digitsVal bs) := by
  have h1 := conv_loop_emod bs 0 1 0 1 rfl rfl
  have h2 := conv_loop_range bs 0 1 (by norm_num) (by norm_num)
  have h3 := wrap64_bounds (digitsVal bs)
  have h4 := wrap64_emod (digitsVal bs)
  omega

theorem digitsVal_map48 (ds : List Nat) :
    digitsVal (ds.map (fun d => d + 48)) = ((ofLSB ds : Int)) := by
  induction ds with
  | nil => simp [digitsVal, ofLSB]
  | cons d ds ih =>
      simp only [List.map_cons, digitsVal, ofLSB, ih]
      push_cast
      omega

theorem ofLSB_natDigits : ∀ f n : Nat, n ≤ f → ofLSB (natDigitsLSB f n) = n := by
  intro f
  induction f with
  | zero =>
      intro n hn
      have : n = 0 := by omega
      subst this
      simp [natDigitsLSB, ofLSB]
  | succ f ih =>
      intro n hn
      unfold natDigitsLSB
      by_cases h : n < 10
      · simp [h, ofLSB]
      · have hrec : n / 10 ≤ f := by omega
        simp only [h, if_false, ofLSB, ih _ hrec]
        omega

theorem natDigitsLSB_lt10 : ∀ f n d : Nat, d ∈ natDigitsLSB f n → d < 10 := by
  intro f
  induction f with
  | zero => intro n d hd; simp [natDigitsLSB] at hd
  | succ f ih =>
      intro n d hd
      unfold natDigitsLSB at hd
      by_cases h : n < 10
      · simp [h] at hd; omega
      · simp only [h, if_false, List.mem_cons] at hd
        rcases hd with rfl | hd
        · omega
        · exact ih _ _ hd

theorem read_number_value_dec (n : Nat) :
    read_number_value (decBytes n) = wrap64 ((n : Int)) := by
  unfold read_number_value decBytes
  rw [List.map_reverse, List.reverse_reverse, conv_loop_eq_wrap, digitsVal_map48,
      ofLSB_natDigits (n + 1) n (by omega)]

theorem decBytes_mem (n : Nat) : ∀ b ∈ decBytes n, 48 ≤ b ∧ b < 58 := by
  intro b hb
  unfold decBytes at hb
  simp only [List.mem_map, List.mem_reverse] at hb
  obtain ⟨d, hd, rfl⟩ := hb
  have := natDigitsLSB_lt10 (n + 1) n d hd
  omega

theorem decBytes_ne_nil (n : Nat) : decBytes n ≠ [] := by
  unfold decBytes natDigitsLSB
  split <;> simp

/-! ## Reader lemmas -/

theorem takeWhile_all {α : Type} (p : α → Bool) :
    ∀ l : List α, (∀ x ∈ l, p x = true) → l.takeWhile p = l ∧ l.dropWhile p = [] := by
  intro l
  induction l with
  | nil => intro _; exact ⟨rfl, rfl⟩
  | cons a l ih =>
      intro h
      have ha := h a (List.mem_cons_self a l)
      have hl := ih (fun x hx => h x (List.mem_cons_of_mem a hx))
      simp [List.takeWhile_cons, List.dropWhile_cons, ha, hl.1, hl.2]

theorem props_digit : ∀ b < 58, 48 ≤ b → char_properties b = 7 := by decide

theorem toUpperByte_digit (b : Nat) (h1 : 48 ≤ b) (h2 : b < 58) :
    toUpperByte b = b := by
  unfold toUpperByte
  rw [if_neg]
  omega

theorem isNumberChar_digit (b : Nat) (h1 : 48 ≤ b) (h2 : b < 58) :
    isNumberChar b = true := by
  unfold isNumberChar
  rw [props_digit b h2 h1]
  decide

/-- `read` on a stream starting with a sign byte immediately hands over to
`read_number`. -/
theorem read_sign_cons (c : Nat) (hc : c = 43 ∨ c = 45) (rest : List Nat) :
    read (c :: rest) = .ok (some (read_number c rest).1, (read_number c rest).2) := by
  rcases hc with rfl | rfl <;> rfl

/-- `read` on a stream starting with a digit also hands over to `read_number`. -/
theorem read_digit_cons (b : Nat) (h1 : 48 ≤ b) (h2 : b < 58) (rest : List Nat) :
    read (b :: rest) = .ok (some (read_number b rest).1, (read_number b rest).2) := by
  have e1 : b % 256 = b := Nat.mod_eq_of_lt (by omega)
  show (let ch := toUpperByte (b % 256)
        let p := char_properties ch
        if p &&& cpropError ≠ 0 then Except.error (.illegalChar ch)
        else if p &&& cpropWhitespace ≠ 0 then read rest
        else if p &&& cpropMac ≠ 0 then
          match mdispatch ch with
          | none => Except.error (.noHandler ch)
          | some h => run_handler h ch rest
        else if p &&& cpropNumberInit ≠ 0 then
          .ok (some (read_number ch rest).1, (read_number ch rest).2)
        else if p &&& cpropConstituent ≠ 0 then
          .ok (some (read_symbol ch rest).1, (read_symbol ch rest).2)
        else if p &&& cpropNumber ≠ 0 then Except.error (.numberCont ch)
        else Except.error (.noProps ch)) = _
  simp only [e1, toUpperByte_digit b h1 h2, props_digit b h2 h1]
  rw [if_neg (by decide : ¬ (7 : Nat) &&& cpropError ≠ 0),
      if_neg (by decide : ¬ (7 : Nat) &&& cpropWhitespace ≠ 0),
      if_neg (by decide : ¬ (7 : Nat) &&& cpropMac ≠ 0),
      if_pos (by decide : (7 : Nat) &&& cpropNumberInit ≠ 0)]

/-- Reading the decimal bytes of `n` after a digit classifier: the digits are
consumed to the end of the stream. -/
theorem read_number_decBytes (n : Nat) (b : Nat) (bs : List Nat)
    (hd : decBytes n = b :: bs) :
    read_number b bs = (.number (wrap64 ((n : Int))), []) := by
  have hmem : ∀ x ∈ bs, isNumberChar x = true := by
    intro x hx
    have : x ∈ decBytes n := by rw [hd]; exact List.mem_cons_of_mem b hx
    have hb := decBytes_mem n x this
    exact isNumberChar_digit x hb.1 hb.2
  have hbd : 48 ≤ b ∧ b < 58 := decBytes_mem n b (by rw [hd]; exact List.mem_cons_self b bs)
  have htw := takeWhile_all isNumberChar bs hmem
  simp only [read_number, htw.1, htw.2, if_neg (by omega : ¬ (b = 45 ∨ b = 43)),
    List.cons_append, List.nil_append]
  rw [hd.symm, read_number_value_dec, if_neg (by omega : ¬ b = 45)]

/-- Reading the textual form of an in-range literal yields exactly that
integer and consumes the whole stream. -/
theorem read_textForm (L : Int) (h1 : -9223372036854775808 ≤ L)
    (h2 : L < 9223372036854775808) :
    read (textForm L) = .ok (some (.number L), []) := by
  by_cases hL : L < 0
  · have htf : textForm L = 45 :: decBytes L.natAbs := by
      unfold textForm decimalRepr
      rw [if_pos hL]
    rw [htf, read_sign_cons 45 (Or.inr rfl) (decBytes L.natAbs)]
    have hmem : ∀ x ∈ decBytes L.natAbs, isNumberChar x = true := by
      intro x hx
      have hb := decBytes_mem L.natAbs x hx
      exact isNumberChar_digit x hb.1 hb.2
    have htw := takeWhile_all isNumberChar (decBytes L.natAbs) hmem
    have hcast : ((L.natAbs : Int)) = -L := by omega
    have hkey : wrap64 (-wrap64 ((L.natAbs : Int))) = L := by
      rw [hcast]
      have hcongr : wrap64 (-wrap64 (-L)) = wrap64 (-(-L)) := by
        apply wrap64_congr
        exact emod_neg_congr _ _ _ (wrap64_emod (-L))
      rw [hcongr, neg_neg, wrap64_eq_self L h1 h2]
    simp only [read_number, htw.1, htw.2, List.nil_append, read_number_value_dec,
      true_or, if_true, eq_self_iff_true, ite_true, hkey]
  · have hnn : 0 ≤ L := by omega
    have htf : textForm L = decBytes L.natAbs := by
      unfold textForm decimalRepr
      rw [if_neg hL]
    obtain ⟨b, bs, hd⟩ : ∃ b bs, decBytes L.natAbs = b :: bs := by
      cases hcase : decBytes L.natAbs with
      | nil => exact absurd hcase (decBytes_ne_nil L.natAbs)
      | cons b bs => exact ⟨b, bs, rfl⟩
    have hbd := decBytes_mem L.natAbs b (by rw [hd]; exact List.mem_cons_self b bs)
    rw [htf, hd, read_digit_cons b hbd.1 hbd.2 bs, read_number_decBytes L.natAbs b bs hd]
    have hcast : ((L.natAbs : Int)) = L := Int.natAbs_of_nonneg hnn
    rw [hcast, wrap64_eq_self L h1 h2]

/-! ## Evaluating and compiling an integer read-object -/

theorem eval_number (f : Nat) (st : MState) (n : Int) (s : List GVal)
    (h : st.stk = .objp (.number n) :: s) :
    exec (f + 1) .evalA st = .ok { st with stk := .i n :: s } := by
  cases st with
  | mk stream stk symtab prog out =>
      dsimp only at h
      subst h
      rfl

theorem compile_number (f : Nat) (st : MState) (n : Int) (s : List GVal)
    (h : st.stk = .objp (.number n) :: s) :
    exec (f + 1) .compileA st
      = .ok { st with stk := .i ((cursorOf st : Int)) :: s, prog := st.prog ++ asm_integer_bytes n } := by
  cases st with
  | mk stream stk symtab prog out =>
      dsimp only at h
      subst h
      rfl

/-! ## Decoding and running the bytes `asm_integer` emits -/

theorem toUInt64_lt (x : Int) : toUInt64 x < 18446744073709551616 := by
  unfold toUInt64; omega

theorem toSigned64_toUInt64 (x : Int) (h1 : -9223372036854775808 ≤ x)
    (h2 : x < 9223372036854775808) : toSigned64 (toUInt64 x) = x := by
  unfold toSigned64 toUInt64 wrap64
  omega

theorem fromLE8_bytesLE8 (v : Nat) (h : v < 18446744073709551616) :
    fromLE8 (v % 256) (v / 256 % 256) (v / 65536 % 256) (v / 16777216 % 256)
      (v / 4294967296 % 256) (v / 1099511627776 % 256)
      (v / 281474976710656 % 256) (v / 72057594037927936 % 256) = v := by
  unfold fromLE8; omega

theorem decode_asm_integer (l : Int) (h1 : -9223372036854775808 ≤ l)
    (h2 : l < 9223372036854775808) :
    decodeFrag (asm_integer_bytes l)
      = some [.subRdi8, .movRcxImm l, .storeRcxRdi] := by
  have hstep : decodeFrag (asm_integer_bytes l)
      = some [.subRdi8,
              .movRcxImm (toSigned64 (fromLE8 (toUInt64 l % 256) (toUInt64 l / 256 % 256)
                (toUInt64 l / 65536 % 256) (toUInt64 l / 16777216 % 256)
                (toUInt64 l / 4294967296 % 256) (toUInt64 l / 1099511627776 % 256)
                (toUInt64 l / 281474976710656 % 256) (toUInt64 l / 72057594037927936 % 256))),
              .storeRcxRdi] := rfl
  rw [hstep, fromLE8_bytesLE8 (toUInt64 l) (toUInt64_lt l), toSigned64_toUInt64 l h1 h2]

theorem mrun_integer_fragment (L : Int) (ms : MachState)
    (h1 : -9223372036854775808 ≤ ms.rdi - 8) (h2 : ms.rdi - 8 < 9223372036854775808) :
    (mrun [.subRdi8, .movRcxImm L, .storeRcxRdi] ms).rdi = ms.rdi - 8
    ∧ (mrun [.subRdi8, .movRcxImm L, .storeRcxRdi] ms).mem (ms.rdi - 8) = L
    ∧ ∀ a : Int, a ≠ ms.rdi - 8 →
        (mrun [.subRdi8, .movRcxImm L, .storeRcxRdi] ms).mem a = ms.mem a := by
  have hw : wrap64 (ms.rdi - 8) = ms.rdi - 8 := wrap64_eq_self _ h1 h2
  refine ⟨?_, ?_, ?_⟩
  · simp [mrun, mstep, hw]
  · simp [mrun, mstep, hw]
  · intro a ha
    simp [mrun, mstep, hw, ha]

/-- C2: for every integer literal L representable in a signed machine word:
(1) reading the textual form of L produces the Integer read-object L and
consumes the text, converting digits right-to-left with ascending factors of
10 from 1 and applying a leading sign to the whole value; (2) evaluating that
read-object pushes L on the parameter stack; (3) compiling it emits exactly
the `asm_integer` fragment for L and returns the fragment's address; (4) that
fragment decodes to `sub rdi, 8; movabs rcx, L; mov [rdi], rcx`; and (5)
running it grows the parameter stack by one slot holding L and leaves every
deeper slot unchanged. -/
theorem c2_integer_roundtrip (L : Int) (h1 : -9223372036854775808 ≤ L)
    (h2 : L < 9223372036854775808) :
    read (textForm L) = .ok (some (.number L), [])
    ∧ (∀ (f : Nat) (st : MState) (s : List GVal), st.stk = .objp (.number L) :: s →
        exec (f + 1) .evalA st = .ok { st with stk := .i L :: s })
    ∧ (∀ (f : Nat) (st : MState) (s : List GVal), st.stk = .objp (.number L) :: s →
        exec (f + 1) .compileA st
          = .ok { st with stk := .i ((cursorOf st : Int)) :: s, prog := st.prog ++ asm_integer_bytes L })
    ∧ decodeFrag (asm_integer_bytes L) = some [.subRdi8, .movRcxImm L, .storeRcxRdi]
    ∧ (∀ ms : MachState, -9223372036854775808 ≤ ms.rdi - 8 →
        ms.rdi - 8 < 9223372036854775808 →
        (mrun [.subRdi8, .movRcxImm L, .storeRcxRdi] ms).rdi = ms.rdi - 8
        ∧ (mrun [.subRdi8, .movRcxImm L, .storeRcxRdi] ms).mem (ms.rdi - 8) = L
        ∧ ∀ a : Int, a ≠ ms.rdi - 8 →
            (mrun [.subRdi8, .movRcxImm L, .storeRcxRdi] ms).mem a = ms.mem a) :=
  ⟨read_textForm L h1 h2,
   fun f st s h => eval_number f st L s h,
   fun f st s h => compile_number f st L s h,
   decode_asm_integer L h1 h2,
   fun ms hm1 hm2 => mrun_integer_fragment L ms hm1 hm2⟩

/-- C2 witness: the round-trip at the concrete literal 7 and a concrete
machine state. -/
theorem c2_integer_roundtrip_witness :
    read (textForm 7) = .ok (some (.number 7), [])
    ∧ decodeFrag (asm_integer_bytes 7) = some [.subRdi8, .movRcxImm 7, .storeRcxRdi]
    ∧ exec 1 .evalA { stream := [], stk := [.objp (.number 7)], symtab := [], prog := [], out := [] } = .ok { stream := [], stk := [.i 7], symtab := [], prog := [], out := [] } := by
  have h := c2_integer_roundtrip 7 (by decide) (by decide)
  refine ⟨h.1, h.2.2.2.1, ?_⟩
  have h3 := h.2.1 0 { stream := [], stk := [.objp (.number 7)], symtab := [], prog := [], out := [] } [] rfl
  exact h3

/-! ## Concrete runs (scenario claims) -/

/-- C1: the spec requires the program `3 4 + PRINTI` to print `7\n`; the
code instead prints `0\n`.  The reader dispatches on NUMBER_INIT before
CONSTITUENT, so `+` is read as the integer 0 (never as the symbol `+`, whose
`add` registration is unreachable), and PRINTI pops that 0. -/
theorem c1_plus_program_prints_zero :
    (topLoop 100 (initState (bytesOf ("3 4 + PRINTI")))).map MState.out
      = .ok (bytesOf ("0\n"))
    ∧ bytesOf ("0\n") ≠ bytesOf ("7\n") := by
  exact ⟨rfl, by decide⟩

/-- C3: end-of-file inside a definition body does not produce an
`UnterminatedDefinition` diagnostic: `read` pushes the NULL object and
`define_thing` dereferences it (`obj->base.type`), i.e. the process crashes
with no diagnostic.  A body terminated by DONE, by contrast, completes
normally. -/
theorem c3_eof_in_body_null_deref :
    topLoop 100 (initState (bytesOf ("DEFUN F 1"))) = .error .nullDeref
    ∧ (topLoop 100 (initState (bytesOf ("DEFUN F 1 DONE")))).map MState.out = .ok [] := by
  exact ⟨rfl, rfl⟩

/-- C5: at startup `*READTAB*` is a value bound to the readtable handle,
`*SYMTAB*` a value bound to the symbol-table handle, and the two handles are
distinct allocations. -/
theorem c5_readtab_symtab_bindings :
    symtab_lookup_symbol initialSymtab (bytesOf ("*READTAB*"))
      = some (.hptr .readtabH, .sval)
    ∧ symtab_lookup_symbol initialSymtab (bytesOf ("*SYMTAB*"))
      = some (.hptr .symtabH, .sval)
    ∧ HPtr.readtabH ≠ HPtr.symtabH := by
  exact ⟨rfl, rfl, by decide⟩

/-! ## C10: a lone sign reads as the integer 0 -/

/-- C10: a `+` or `-` datum whose next byte lacks the NUMBER property (or is
end-of-file) is read as the Integer 0, with the following byte pushed back —
never as a Symbol. -/
theorem c10_sign_alone_reads_zero (p c : Nat) (rest : List Nat)
    (hp : p = 43 ∨ p = 45) (hc : char_properties c &&& cpropNumber = 0) :
    read (p :: c :: rest) = .ok (some (.number 0), c :: rest)
    ∧ read [p] = .ok (some (.number 0), []) := by
  have hf : isNumberChar c = false := by
    unfold isNumberChar
    rw [hc]
    decide
  have hplus : read_number 43 (c :: rest) = (.number 0, c :: rest) := by
    simp [read_number, hf, read_number_value, conv_loop]
  have hminus : read_number 45 (c :: rest) = (.number 0, c :: rest) := by
    simp only [read_number, List.takeWhile_cons, List.dropWhile_cons, hf]
    norm_num [read_number_value, conv_loop, wrap64]
  have hplusE : read_number 43 ([] : List Nat) = (.number 0, []) := by
    simp [read_number, read_number_value, conv_loop]
  have hminusE : read_number 45 ([] : List Nat) = (.number 0, []) := by
    simp only [read_number]
    norm_num [read_number_value, conv_loop, wrap64]
  constructor
  · rw [read_sign_cons p hp (c :: rest)]
    rcases hp with rfl | rfl
    · rw [hplus]
    · rw [hminus]
  · rw [read_sign_cons p hp []]
    rcases hp with rfl | rfl
    · rw [hplusE]
    · rw [hminusE]

/-- C10 witness: `+` followed by a space. -/
theorem c10_sign_alone_reads_zero_witness :
    read [43, 32, 55] = .ok (some (.number 0), [32, 55])
    ∧ read [43] = .ok (some (.number 0), []) :=
  c10_sign_alone_reads_zero 43 32 [55] (Or.inl rfl) (by decide)

/-! ## C7: MACRO characters always dispatch -/

theorem mac_chars : ∀ c < 256, char_properties c &&& cpropMac ≠ 0 →
    c = 34 ∨ c = 40 ∨ c = 91 := by decide

/-- C7: when the datum-start loop reaches a character with the MACRO
property, it goes through `macro_dispatch` (fatal when that slot is null) —
in the default readtable every MACRO character has a non-null slot — and it
is never skipped or treated as another property class. -/
theorem c7_macro_always_dispatches (c : Nat) (h1 : c < 256)
    (h2 : char_properties c &&& cpropMac ≠ 0) :
    (mdispatch c).isSome = true
    ∧ ∀ rest, read (c :: rest)
        = (match mdispatch c with
           | some hh => run_handler hh c rest
           | none => Except.error (.noHandler c)) := by
  rcases mac_chars c h1 h2 with rfl | rfl | rfl
  · exact ⟨rfl, fun rest => rfl⟩
  · exact ⟨rfl, fun rest => rfl⟩
  · exact ⟨rfl, fun rest => rfl⟩

/-- C7 witness: the string-quote character. -/
theorem c7_macro_always_dispatches_witness :
    (mdispatch 34).isSome = true
    ∧ read (34 :: [34]) = (match mdispatch 34 with
        | some hh => run_handler hh 34 [34]
        | none => Except.error (.noHandler 34)) := by
  have h := c7_macro_always_dispatches 34 (by decide) (by decide)
  exact ⟨h.1, h.2 [34]⟩

/-! ## C8: whitespace-only input ends legally -/

theorem ws_only : ∀ c < 256, char_properties c &&& cpropWhitespace ≠ 0 →
    char_properties c = 32 := by decide

theorem toUpperByte_lt (c : Nat) (h : c < 256) : toUpperByte c < 256 := by
  unfold toUpperByte
  split <;> omega

theorem read_ws_all : ∀ s : List Nat,
    (∀ c ∈ s, char_properties (toUpperByte (c % 256)) &&& cpropWhitespace ≠ 0) →
    read s = .ok (none, []) := by
  intro s
  induction s with
  | nil => intro _; rfl
  | cons c rest ih =>
      intro h
      have hc := h c (List.mem_cons_self c rest)
      have hlt : toUpperByte (c % 256) < 256 :=
        toUpperByte_lt _ (Nat.mod_lt _ (by omega))
      have hp : char_properties (toUpperByte (c % 256)) = 32 := ws_only _ hlt hc
      have hrest := ih (fun x hx => h x (List.mem_cons_of_mem c hx))
      simp only [read, hp]
      rw [if_neg (by decide : ¬ (32 : Nat) &&& cpropError ≠ 0),
          if_pos (by decide : (32 : Nat) &&& cpropWhitespace ≠ 0)]
      exact hrest

theorem topLoop_empty_read (f : Nat) (st : MState) (hstk : st.stk = [])
    (hr : read st.stream = .ok (none, [])) :
    topLoop (f + 1) st = .ok { st with stream := [] } := by
  cases st with
  | mk stream stk symtab prog out =>
      dsimp only at hstk hr
      subst hstk
      simp only [topLoop, exec]
      rw [hr]

/-- C8: on a stream of whitespace only (including the empty stream), `read`
returns the NULL object without a fatal error, and the top-level loop
terminates normally for that file. -/
theorem c8_whitespace_eof_legal (s : List Nat)
    (hws : ∀ c ∈ s, char_properties (toUpperByte (c % 256)) &&& cpropWhitespace ≠ 0) :
    read s = .ok (none, [])
    ∧ ∀ f : Nat, topLoop (f + 1) (initState s) = .ok (initState []) := by
  have hr := read_ws_all s hws
  refine ⟨hr, fun f => ?_⟩
  exact topLoop_empty_read f (initState s) rfl hr

/-- C8 witness: a stream of one space, tab, CR and LF. -/
theorem c8_whitespace_eof_legal_witness :
    read [32, 9, 13, 10] = .ok (none, [])
    ∧ topLoop 5 (initState [32, 9, 13, 10]) = .ok (initState []) := by
  have h := c8_whitespace_eof_legal [32, 9, 13, 10] (by decide)
  exact ⟨h.1, h.2 4⟩

/-! ## C6: the symbol-table algebra -/

/-- C6: after `add(N, V, K)` a lookup of N returns (V, K) even when older
entries named N exist (newest shadows oldest); lookups of other names are
unchanged; and a name never added looks up to None. -/
theorem c6_symtab_add_lookup (t : Symtab) (n : List Nat) (v : GVal) (k : SymKind) :
    symtab_lookup_symbol (symtab_add_symbol t n v k) n = some (v, k)
    ∧ (∀ m, m ≠ n →
        symtab_lookup_symbol (symtab_add_symbol t n v k) m = symtab_lookup_symbol t m)
    ∧ ∀ q, (∀ e ∈ t, e.name ≠ q) → symtab_lookup_symbol t q = none := by
  refine ⟨?_, ?_, ?_⟩
  · unfold symtab_lookup_symbol symtab_add_symbol
    rw [List.find?_cons_of_pos _ (by simp)]
    rfl
  · intro m hm
    unfold symtab_lookup_symbol symtab_add_symbol
    rw [List.find?_cons_of_neg _ (by simpa using Ne.symm hm)]
  · intro q hq
    unfold symtab_lookup_symbol
    rw [List.find?_eq_none.mpr (fun e he => by simp [hq e he])]
    rfl

/-- C6 witness: shadowing DUP in the startup table, checking an untouched
name and an absent name. -/
theorem c6_symtab_add_lookup_witness :
    symtab_lookup_symbol (symtab_add_symbol initialSymtab (bytesOf ("DUP")) (.i 5) .sval)
      (bytesOf ("DUP")) = some (.i 5, .sval)
    ∧ symtab_lookup_symbol (symtab_add_symbol initialSymtab (bytesOf ("DUP")) (.i 5) .sval)
        (bytesOf ("SWAP")) = symtab_lookup_symbol initialSymtab (bytesOf ("SWAP"))
    ∧ symtab_lookup_symbol initialSymtab (bytesOf ("NOPE")) = none := by
  have h := c6_symtab_add_lookup initialSymtab (bytesOf ("DUP")) (.i 5) .sval
  exact ⟨h.1, h.2.1 (bytesOf ("SWAP")) (by decide), h.2.2 (bytesOf ("NOPE")) (by decide)⟩

/-! ## C4: definitions register their entry address before the body -/

/-- C4: for DEFUN/DEFMACRO, `define_thing` captures the cursor E before
emitting the prologue, registers `name -> (E, kind)` before any body object
is read or compiled (the body loop starts on the extended table), and a
lookup of the name on that table yields E. -/
theorem c4_define_registers_before_body (k : SymKind) (st : MState)
    (nm s1 : List Nat) (hk : k ≠ .sval)
    (hr : read st.stream = .ok (some (.symbol nm), s1)) :
    define_setup k st
      = .ok (nm, emit_prologue { st with stream := s1, symtab := symtab_add_symbol st.symtab nm (.i ((cursorOf st : Int))) k })
    ∧ symtab_lookup_symbol (symtab_add_symbol st.symtab nm (.i ((cursorOf st : Int))) k) nm
      = some (.i ((cursorOf st : Int)), k) := by
  constructor
  · unfold define_setup
    rw [hr]
    dsimp only
    rw [if_neg hk]
  · unfold symtab_lookup_symbol symtab_add_symbol
    rw [List.find?_cons_of_pos _ (by simp)]
    rfl

/-- C4 witness: `DEFUN F ...` on the startup state registers F at the
current cursor before the body. -/
theorem c4_define_registers_before_body_witness :
    define_setup .sfun (initState (bytesOf ("F 1")))
      = .ok (bytesOf ("F"), emit_prologue { initState (bytesOf ("F 1")) with stream := [32, 49], symtab := symtab_add_symbol initialSymtab (bytesOf ("F")) (.i 16777216) .sfun })
    ∧ symtab_lookup_symbol (symtab_add_symbol initialSymtab (bytesOf ("F")) (.i 16777216) .sfun) (bytesOf ("F")) = some (.i 16777216, .sfun) := by
  have h := c4_define_registers_before_body .sfun (initState (bytesOf ("F 1")))
    (bytesOf ("F")) [32, 49] (by decide) rfl
  exact ⟨h.1, h.2⟩

/-! ## C9: cursor monotonicity -/

theorem prog_ext_trans {a b c : List Nat} (h1 : ∃ t, b = a ++ t)
    (h2 : ∃ t, c = b ++ t) : ∃ t, c = a ++ t := by
  obtain ⟨t1, rfl⟩ := h1
  obtain ⟨t2, rfl⟩ := h2
  exact ⟨t1 ++ t2, List.append_assoc a t1 t2⟩

theorem define_setup_prog (k : SymKind) (st : MState) (r : List Nat × MState)
    (h : define_setup k st = .ok r) : ∃ t, r.2.prog = st.prog ++ t := by
  unfold define_setup at h
  repeat' split at h
  all_goals first
    | exact Except.noConfusion h
    | (injection h with h2; subst h2; exact ⟨asm_prologue_bytes, rfl⟩)

/-- Nothing the interpreter does ever removes bytes from the code buffer:
every successful step leaves the previously emitted bytes as an initial
segment. -/
theorem exec_prog_extends : ∀ (f : Nat) (a : Act) (st st2 : MState),
    exec f a st = .ok st2 → ∃ t, st2.prog = st.prog ++ t := by
  intro f
  induction f with
  | zero =>
      intro a st st2 h
      exact Except.noConfusion h
  | succ f ih =>
      intro a st st2 h
      cases a with
      | callA v =>
          cases v <;> simp only [exec] at h <;>
            first
              | exact ih _ _ _ h
              | exact Except.noConfusion h
      | primA p =>
          cases p <;> simp only [exec] at h
          all_goals try exact ih _ _ _ h
          all_goals try exact Except.noConfusion h
          all_goals repeat' split at h
          all_goals first
            | exact Except.noConfusion h
            | (injection h with h2; subst h2;
               first
                 | exact ⟨[], (List.append_nil _).symm⟩
                 | (have hx := ih _ _ _ (by assumption); exact hx))
      | evalA =>
          simp only [exec] at h
          repeat' split at h
          all_goals first
            | exact Except.noConfusion h
            | (injection h with h2; subst h2; exact ⟨[], (List.append_nil _).symm⟩)
            | (have hx := ih _ _ _ h; exact hx)
      | compileA =>
          simp only [exec] at h
          repeat' split at h
          all_goals first
            | exact Except.noConfusion h
            | (injection h with h2; subst h2;
               first
                 | exact ⟨[], (List.append_nil _).symm⟩
                 | exact ⟨asm_call_bytes _ _, rfl⟩
                 | exact ⟨asm_integer_bytes _, rfl⟩
                 | (have hx := ih _ _ _ (by assumption);
                    exact prog_ext_trans hx ⟨[], (List.append_nil _).symm⟩))
      | defineA k =>
          simp only [exec] at h
          repeat' split at h
          all_goals first
            | exact Except.noConfusion h
            | (injection h with h2; subst h2;
               have hx1 := define_setup_prog _ _ _ (by assumption);
               have hx2 := ih _ _ _ (by assumption);
               exact prog_ext_trans hx1 (prog_ext_trans hx2
                 ⟨asm_epilogue_bytes ++ asm_ret_bytes, List.append_assoc _ _ _⟩))
      | bodyA k nm =>
          simp only [exec] at h
          repeat' split at h
          all_goals first
            | exact Except.noConfusion h
            | (injection h with h2; subst h2; exact ⟨[], (List.append_nil _).symm⟩)
            | (have hx1 := ih (if k = SymKind.sval then Act.evalA else Act.compileA) _ _
                 (by assumption);
               have hx2 := ih _ _ _ h;
               exact prog_ext_trans hx1 hx2)

theorem cursorOf_emit_bytes (st : MState) (bs : List Nat) :
    cursorOf (emit_bytes st bs) = cursorOf st + bs.length := by
  simp [cursorOf, emit_bytes, List.length_append, Nat.add_assoc]

theorem asm_call_bytes_len_pos (cur target : Nat) :
    0 < (asm_call_bytes cur target).length := by
  unfold asm_call_bytes
  repeat' split
  all_goals simp [bytesLE8, bytesLE4]

theorem asm_integer_bytes_len (l : Int) : (asm_integer_bytes l).length = 17 := by
  simp [asm_integer_bytes, bytesLE8]

/-- C9: every emitter operation (prologue, epilogue, ret, call, integer)
returns a cursor strictly greater than its input cursor, and a successful
`compile` of any read-object never decreases the cursor; emitted bytes are
never reclaimed. -/
theorem c9_cursor_monotonic :
    (∀ st : MState, cursorOf st < cursorOf (emit_prologue st))
    ∧ (∀ st : MState, cursorOf st < cursorOf (emit_epilogue st))
    ∧ (∀ st : MState, cursorOf st < cursorOf (emit_ret st))
    ∧ (∀ (st : MState) (target : Nat), cursorOf st < cursorOf (emit_call st target))
    ∧ (∀ (st : MState) (l : Int), cursorOf st < cursorOf (emit_integer st l))
    ∧ ∀ (f : Nat) (st st2 : MState),
        exec f .compileA st = .ok st2 → cursorOf st ≤ cursorOf st2 := by
  refine ⟨?_, ?_, ?_, ?_, ?_, ?_⟩
  · intro st; rw [emit_prologue, cursorOf_emit_bytes]; simp [asm_prologue_bytes]
  · intro st; rw [emit_epilogue, cursorOf_emit_bytes]; simp [asm_epilogue_bytes]
  · intro st; rw [emit_ret, cursorOf_emit_bytes]; simp [asm_ret_bytes]
  · intro st target
    rw [emit_call, cursorOf_emit_bytes]
    have := asm_call_bytes_len_pos (cursorOf st) target
    omega
  · intro st l
    rw [emit_integer, cursorOf_emit_bytes]
    rw [asm_integer_bytes_len]
    omega
  · intro f st st2 h
    obtain ⟨t, ht⟩ := exec_prog_extends f .compileA st st2 h
    simp only [cursorOf, ht, List.length_append]
    omega

/-- C9 witness: the prologue advance and a concrete compile of the literal 7. -/
theorem c9_cursor_monotonic_witness :
    cursorOf (initState []) < cursorOf (emit_prologue (initState []))
    ∧ cursorOf { stream := ([] : List Nat), stk := [GVal.objp (.number 7)], symtab := [], prog := [], out := [] } ≤ cursorOf { stream := ([] : List Nat), stk := [GVal.i 16777216], symtab := [], prog := asm_integer_bytes 7, out := [] } := by
  refine ⟨c9_cursor_monotonic.1 (initState []), ?_⟩
  exact c9_cursor_monotonic.2.2.2.2.2 1 _ _ rfl

end Simple
